import Mathlib

/-!
# Verification of `hep` utilities

Shallow embedding of the `hep_utils` Python package: the geometry formulas
(`deltaR`, `norm1` from `formulas.py`), the plotting helpers
(`plot_rings_profile`, `plot_all_rings`, `histplot`, `categorical_histplot`
from `plotting/pyplot.py`) and the columnar-handle converters
(`rdf_to_pandas`, `open_vector` from `root.py`).  Numeric data is modelled
with exact rationals (`ℚ`) where the code only adds, multiplies and divides,
and with reals (`ℝ`) where the code takes square roots.  2-D arrays are rows
of lists; the external dataframe/plotting/columnar libraries are modelled by
the operations the code calls on them.
-/

namespace HepUtils

/-! ## `formulas.py`: `norm1` -/

/-- The effect of `norm1` on a single row: `norms = np.abs(data.sum(axis=1))`
computes the absolute value of the row sum, `norms[norms == 0] = 1` replaces a
zero divisor by 1, and `data / norms[:, None]` divides every entry of the row
by that divisor. -/
def norm1Row (row : List ℚ) : List ℚ :=
  let s := |row.sum|
  let d := if s = 0 then 1 else s
  row.map (· / d)

/-- Source `norm1(data)` from `src/hep_utils/formulas.py` (lines 35–51): the divisor
of each row depends only on that row, so the vectorised numpy code acts
row-by-row. -/
def norm1 (data : List (List ℚ)) : List (List ℚ) :=
  data.map norm1Row

theorem sum_map_div (l : List ℚ) (d : ℚ) : (l.map (· / d)).sum = l.sum / d := by
  simp only [div_eq_mul_inv, List.sum_map_mul_right, List.map_id_fun', id]

theorem norm1Row_length (row : List ℚ) : (norm1Row row).length = row.length := by
  simp [norm1Row]

theorem norm1Row_of_sum_eq_zero (row : List ℚ) (h : row.sum = 0) :
    norm1Row row = row := by
  simp [norm1Row, h]

theorem norm1Row_abs_sum (row : List ℚ) (h : row.sum ≠ 0) :
    |(norm1Row row).sum| = 1 := by
  have hs : |row.sum| ≠ 0 := by simpa using h
  simp only [norm1Row, if_neg hs, sum_map_div, abs_div, abs_abs]
  exact div_self hs

/-- C1 (amended): `norm1` preserves the shape of its input, leaves any row
whose sum is exactly 0 unchanged, and scales every other row so that the
absolute value of the row's **sum** is 1 (equivalently, so that the sum of
absolute values is 1 whenever the row's entries all share one sign). -/
theorem norm1_row_l1_normalized (data : List (List ℚ)) (i : ℕ)
    (h : i < data.length) :
    (norm1 data).length = data.length ∧
    ((norm1 data).getD i []).length = (data.getD i []).length ∧
    (if (data.getD i []).sum = 0
      then (norm1 data).getD i [] = data.getD i []
      else |((norm1 data).getD i []).sum| = 1) := by
  have hlen : (norm1 data).length = data.length := by simp [norm1]
  have hi : i < (norm1 data).length := by omega
  have hrow : (norm1 data).getD i [] = norm1Row (data.getD i []) := by
    rw [List.getD_eq_getElem _ _ hi, List.getD_eq_getElem _ _ h]
    simp [norm1]
  refine ⟨hlen, ?_, ?_⟩
  · rw [hrow, norm1Row_length]
  · by_cases hz : (data.getD i []).sum = 0
    · rw [if_pos hz, hrow, norm1Row_of_sum_eq_zero _ hz]
    · rw [if_neg hz, hrow, norm1Row_abs_sum _ hz]

theorem norm1_row_l1_normalized_witness :
    (norm1 [[3, -1], [0, 0]]).length = 2 ∧
    ((norm1 [[3, -1], [0, 0]]).getD 0 []).length =
      (([[3, -1], [0, 0]] : List (List ℚ)).getD 0 []).length ∧
    (if (([[3, -1], [0, 0]] : List (List ℚ)).getD 0 []).sum = 0
      then (norm1 [[3, -1], [0, 0]]).getD 0 [] =
        ([[3, -1], [0, 0]] : List (List ℚ)).getD 0 []
      else |((norm1 [[3, -1], [0, 0]]).getD 0 []).sum| = 1) :=
  norm1_row_l1_normalized [[3, -1], [0, 0]] 0 (by decide)

/-- C1, original wording, refuted: on the mixed-sign row `[1, -2]` (whose sum
is −1 ≠ 0) the output row of `norm1` has sum of absolute values 3, not 1. -/
theorem norm1_abs_sum_counterexample :
    ((((norm1 [[1, -2]]).getD 0 []).map (fun x => |x|)).sum ≠ 1) ∧
    (([1, -2] : List ℚ).sum ≠ 0) := by
  constructor
  · norm_num [norm1, norm1Row]
  · norm_num

/-! ## `formulas.py`: `deltaR` -/

/-- Source `deltaR(eta1, phi1, eta2, phi2)` from `src/hep_utils/formulas.py`
(lines 6–32), scalar branch: `deta = np.abs(eta1 - eta2)`,
`dphi = np.abs(phi1 - phi2)`, `if dphi >= np.pi: dphi = 2*np.pi - dphi`,
`np.sqrt((deta**2) + (dphi**2))`. -/
noncomputable def deltaR (eta1 phi1 eta2 phi2 : ℝ) : ℝ :=
  let deta := |eta1 - eta2|
  let dphi := |phi1 - phi2|
  let dphi := if dphi ≥ Real.pi then 2 * Real.pi - dphi else dphi
  Real.sqrt (deta ^ 2 + dphi ^ 2)

/-- The `isinstance(eta1, np.ndarray)` branch of `deltaR`: all four inputs are
arrays, `deta` and `dphi` are computed elementwise and the mask assignment
`dphi[dphi >= np.pi] = 2*np.pi - dphi[dphi >= np.pi]` rewrites exactly the
entries that are ≥ π. -/
noncomputable def deltaRArr (eta1 phi1 eta2 phi2 : List ℝ) : List ℝ :=
  let deta := List.zipWith (fun a b => |a - b|) eta1 eta2
  let dphi := List.zipWith (fun a b => |a - b|) phi1 phi2
  let dphi := dphi.map (fun x => if x ≥ Real.pi then 2 * Real.pi - x else x)
  List.zipWith (fun a b => Real.sqrt (a ^ 2 + b ^ 2)) deta dphi

/-- The spec's wording (refinement reference, written from the spec, not the
source): "sqrt(Δη² + Δφ²) where Δφ is wrapped into [0, π] by reflecting values
≥ π to 2π − Δφ". -/
noncomputable def deltaRSpecSide (eta1 phi1 eta2 phi2 : ℝ) : ℝ :=
  Real.sqrt (|eta1 - eta2| ^ 2 +
    (if |phi1 - phi2| ≥ Real.pi
      then 2 * Real.pi - |phi1 - phi2| else |phi1 - phi2|) ^ 2)

/-- C6: `deltaR` equals sqrt(Δη² + wrapped-Δφ²) as the spec words it, the
array branch computes exactly the scalar formula elementwise on equally
shaped arrays, and `deltaR(0,0,0,2π − 0.1) = deltaR(0,0,0,0.1)`. -/
theorem deltaR_formula_and_wrap (e1 p1 e2 p2 : ℝ) (ae1 ap1 ae2 ap2 : List ℝ)
    (h1 : ap1.length = ae1.length) (h2 : ae2.length = ae1.length)
    (h3 : ap2.length = ae1.length) :
    deltaR e1 p1 e2 p2 = deltaRSpecSide e1 p1 e2 p2 ∧
    deltaRArr ae1 ap1 ae2 ap2 =
      (List.range ae1.length).map
        (fun i => deltaR (ae1.getD i 0) (ap1.getD i 0)
          (ae2.getD i 0) (ap2.getD i 0)) ∧
    deltaR 0 0 0 (2 * Real.pi - 1/10) = deltaR 0 0 0 (1/10) := by
  refine ⟨rfl, ?_, ?_⟩
  · apply List.ext_getElem
    · simp [deltaRArr, h1, h2, h3]
    · intro n hn1 hn2
      have hn : n < ae1.length := by
        simpa [deltaRArr, h1, h2, h3] using hn1
      simp only [deltaRArr, List.getElem_zipWith, List.getElem_map,
        List.getElem_range]
      rw [List.getD_eq_getElem _ _ hn, List.getD_eq_getElem _ _ (h1 ▸ hn),
        List.getD_eq_getElem _ _ (h2 ▸ hn), List.getD_eq_getElem _ _ (h3 ▸ hn)]
      rfl
  · have hpi : (3:ℝ) < Real.pi := Real.pi_gt_three
    have ha : |(0:ℝ) - (2 * Real.pi - 1/10)| = 2 * Real.pi - 1/10 := by
      rw [zero_sub, abs_neg]
      exact abs_of_nonneg (by linarith)
    have hb : |(0:ℝ) - 1/10| = 1/10 := by
      rw [zero_sub, abs_neg]
      norm_num
    simp only [deltaR, ha, hb]
    rw [if_pos (by linarith), if_neg (by push_neg; linarith)]
    norm_num

theorem deltaR_formula_and_wrap_witness :
    deltaR 0 0 0 1 = deltaRSpecSide 0 0 0 1 ∧
    deltaRArr [0] [0] [0] [1] =
      (List.range ([(0:ℝ)] : List ℝ).length).map
        (fun i => deltaR (([(0:ℝ)] : List ℝ).getD i 0)
          (([(0:ℝ)] : List ℝ).getD i 0) (([(0:ℝ)] : List ℝ).getD i 0)
          (([(1:ℝ)] : List ℝ).getD i 0)) ∧
    deltaR 0 0 0 (2 * Real.pi - 1/10) = deltaR 0 0 0 (1/10) :=
  deltaR_formula_and_wrap 0 0 0 1 [0] [0] [0] [1] rfl rfl rfl

/-! ## `plotting/pyplot.py`: rings profile plots -/

/-- Argument type of `plot_rings_profile` / `plot_all_rings`:
`Union[pd.DataFrame, npt.NDArray[np.float_]]`, a table or a plain 2-D array
of rows. -/
inductive RingsInput
  | dataframe (rows : List (List ℚ))
  | ndarray (rows : List (List ℚ))

/-- Value of the local variable `rings` after the line
`if isinstance(df, pd.DataFrame): rings = df.values`: it is assigned only in
the DataFrame branch, so for an ndarray input it stays unbound (`none`). -/
def RingsInput.ringsLocal : RingsInput → Option (List (List ℚ))
  | .dataframe t => some t
  | .ndarray _ => none

/-- Values of column `j` of a 2-D array stored as rows. -/
def colVals (rows : List (List ℚ)) (j : ℕ) : List ℚ :=
  rows.map (fun r => r.getD j 0)

/-- Arithmetic mean, as `np.mean` computes it. -/
def npMean (xs : List ℚ) : ℚ := xs.sum / xs.length

/-- Population variance, the square of `np.std` (default `ddof=0`). -/
def npVar (xs : List ℚ) : ℚ :=
  (xs.map (fun x => (x - npMean xs) ^ 2)).sum / xs.length

/-- Standard deviation as `np.std` computes it: the square root of the
population variance. -/
noncomputable def npStd (xs : List ℚ) : ℝ := Real.sqrt (npVar xs)

/-- Number of columns of a rectangular 2-D array stored as rows. -/
def nColsOf (rows : List (List ℚ)) : ℕ := (rows.headD []).length

/-- Result of `rings.mean(axis=0)`: the column-wise means. -/
def meanProfile (rows : List (List ℚ)) : List ℚ :=
  (List.range (nColsOf rows)).map (fun j => npMean (colVals rows j))

/-- Result of `rings.std(axis=0)`: the column-wise standard deviations. -/
noncomputable def stdProfile (rows : List (List ℚ)) : List ℝ :=
  (List.range (nColsOf rows)).map (fun j => npStd (colVals rows j))

/-- Numeric core of `plot_rings_profile` from
`src/hep_utils/plotting/pyplot.py` (lines 48–111): bind `rings` (DataFrame
branch only — an ndarray input leaves it unbound and the next use of `rings`
raises `UnboundLocalError`), optionally row-normalize with `norm1`, and
return the column-wise mean and std that the function returns alongside the
axes.  The rendering flags `error_margin`, `label` and `add_rings_labels`
only emit drawing calls and do not touch `mean`/`std`. -/
noncomputable def plot_rings_profile (df : RingsInput)
    (normalize errorMargin addRingsLabels : Bool) (label : String) :
    Except String (List ℚ × List ℝ) :=
  match df.ringsLocal with
  | none => .error "UnboundLocalError: rings"
  | some rings =>
    let rings := if normalize then norm1 rings else rings
    .ok (meanProfile rings, stdProfile rings)

/-- Numeric core of `plot_all_rings` from `src/hep_utils/plotting/pyplot.py`
(lines 114–170): same `rings` binding and optional normalization, then the
loop `for i, ring_vector in enumerate(rings): ax.plot(x, ring_vector, ...)`
draws exactly one polyline per row; the returned list holds those
polylines. -/
def plot_all_rings (df : RingsInput) (normalize : Bool) :
    Except String (List (List ℚ)) :=
  match df.ringsLocal with
  | none => .error "UnboundLocalError: rings"
  | some rings =>
    let rings := if normalize then norm1 rings else rings
    .ok rings

/-- C2, refuted by the code: for a plain ndarray input the local `rings` is
never assigned (it is only bound inside the `isinstance(df, pd.DataFrame)`
branch), so both `plot_rings_profile` and `plot_all_rings` raise
`UnboundLocalError` instead of processing the array. -/
theorem plot_ndarray_unbound_local :
    plot_rings_profile (.ndarray [[1, 2], [3, 4]]) true true true "" =
      .error "UnboundLocalError: rings" ∧
    plot_all_rings (.ndarray [[1, 2], [3, 4]]) true =
      .error "UnboundLocalError: rings" :=
  ⟨rfl, rfl⟩

theorem npMean_replicate (n : ℕ) (hn : 1 ≤ n) (x : ℚ) :
    npMean (List.replicate n x) = x := by
  have hne : (n : ℚ) ≠ 0 := by
    have hn0 : n ≠ 0 := by omega
    exact_mod_cast hn0
  simp only [npMean, List.sum_replicate, List.length_replicate, nsmul_eq_mul]
  exact mul_div_cancel_left₀ x hne

theorem npVar_replicate (n : ℕ) (hn : 1 ≤ n) (x : ℚ) :
    npVar (List.replicate n x) = 0 := by
  simp [npVar, npMean_replicate n hn x]

theorem map_getD_range {α : Type} (l : List α) (d : α) :
    (List.range l.length).map (fun j => l.getD j d) = l := by
  apply List.ext_getElem
  · simp
  · intro i h1 h2
    simp only [List.getElem_map, List.getElem_range]
    exact List.getD_eq_getElem l d h2

theorem meanProfile_replicate (n : ℕ) (hn : 1 ≤ n) (r : List ℚ) :
    meanProfile (List.replicate n r) = r := by
  have hcols : nColsOf (List.replicate n r) = r.length := by
    cases n with
    | zero => omega
    | succ m => simp [nColsOf, List.replicate_succ]
  have hvals : ∀ j, colVals (List.replicate n r) j = List.replicate n (r.getD j 0) := by
    intro j
    simp [colVals, List.map_replicate]
  simp only [meanProfile, hcols, hvals]
  calc (List.range r.length).map (fun j => npMean (List.replicate n (r.getD j 0)))
      = (List.range r.length).map (fun j => r.getD j 0) := by
        apply List.map_congr_left
        intro j _
        exact npMean_replicate n hn _
    _ = r := map_getD_range r 0

theorem stdProfile_replicate (n : ℕ) (hn : 1 ≤ n) (r : List ℚ) :
    stdProfile (List.replicate n r) = List.replicate r.length 0 := by
  have hcols : nColsOf (List.replicate n r) = r.length := by
    cases n with
    | zero => omega
    | succ m => simp [nColsOf, List.replicate_succ]
  have hvals : ∀ j, colVals (List.replicate n r) j = List.replicate n (r.getD j 0) := by
    intro j
    simp [colVals, List.map_replicate]
  simp only [stdProfile, hcols, hvals]
  calc (List.range r.length).map (fun j => npStd (List.replicate n (r.getD j 0)))
      = (List.range r.length).map (fun _ => (0 : ℝ)) := by
        apply List.map_congr_left
        intro j _
        simp [npStd, npVar_replicate n hn]
    _ = List.replicate r.length 0 := by
        simp

/-- C5: on a table of `n ≥ 1` identical rows, `plot_rings_profile` returns
mean equal to that row (to the row's `norm1` normalization when `normalize`
is set) and std equal to the all-zeros vector, whatever the rendering
options `error_margin`, `label`, `add_rings_labels` are. -/
theorem plot_rings_profile_identical_rows (n : ℕ) (hn : 1 ≤ n) (r : List ℚ)
    (normalize errorMargin addRingsLabels : Bool) (label : String) :
    plot_rings_profile (.dataframe (List.replicate n r))
        normalize errorMargin addRingsLabels label =
      .ok (if normalize then norm1Row r else r, List.replicate r.length 0) := by
  simp only [plot_rings_profile, RingsInput.ringsLocal]
  have hrows : (if normalize then norm1 (List.replicate n r)
      else List.replicate n r) =
      List.replicate n (if normalize then norm1Row r else r) := by
    rw [apply_ite (List.replicate n)]
    congr 1
    simp [norm1, List.map_replicate]
  rw [hrows, meanProfile_replicate n hn, stdProfile_replicate n hn]
  have hlen : (if normalize then norm1Row r else r).length = r.length := by
    cases normalize <;> simp [norm1Row_length]
  rw [hlen]

theorem plot_rings_profile_identical_rows_witness :
    plot_rings_profile (.dataframe (List.replicate 2 [1, 3])) true true true "" =
      .ok (if true then norm1Row [1, 3] else [1, 3],
        List.replicate ([1, 3] : List ℚ).length 0) :=
  plot_rings_profile_identical_rows 2 (by decide) [1, 3] true true true ""

/-! ## `plotting/pyplot.py`: `histplot` -/

/-- Maximum of a nonempty list, as `data.max()` computes it (`np.max` raises
on an empty array; 0 here is an arbitrary default never relied upon). -/
def npMax : List ℚ → ℚ
  | [] => 0
  | x :: xs => xs.foldl max x

/-- Minimum of a nonempty list, as `data.min()` computes it. -/
def npMin : List ℚ → ℚ
  | [] => 0
  | x :: xs => xs.foldl min x

/-- Embeds `np.linspace(a, b, n)`: `n` evenly spaced points from `a` to `b`
inclusive. -/
def npLinspace (a b : ℚ) (n : ℕ) : List ℚ :=
  if n = 0 then []
  else if n = 1 then [a]
  else (List.range n).map (fun i => a + (b - a) * i / (n - 1))

/-- Observable outcome of one `histplot` call: the data handed to `ax.hist`,
the bin edges handed to it as `bins`, and the `'bins'` entry of the
`hist_kwargs` dictionary after the call (the dictionary is a mutable default
argument, shared across calls that do not pass their own). -/
structure HistCall where
  data : List ℚ
  edges : List ℚ
  binsKwarg : Option (List ℚ)

/-- Core of `histplot` from `src/hep_utils/plotting/pyplot.py` (lines
173–251): `bin_max` is resolved first (`data.max()` when absent, otherwise
`data = data[data <= bin_max]`), then `bin_min` likewise on the already
filtered data; if `hist_kwargs` has no `'bins'` entry the call stores
`np.linspace(bin_min, bin_max, nbins)` in it, and `ax.hist` receives the
filtered data with whatever `'bins'` now holds. -/
def histplot (data : List ℚ) (nbins : ℕ) (binMin binMax : Option ℚ)
    (binsKw : Option (List ℚ)) : HistCall :=
  let p1 : List ℚ × ℚ := match binMax with
    | none => (data, npMax data)
    | some m => (data.filter (fun x => x ≤ m), m)
  let p2 : List ℚ × ℚ := match binMin with
    | none => (p1.1, npMin p1.1)
    | some m => (p1.1.filter (fun x => m ≤ x), m)
  let edges := match binsKw with
    | none => npLinspace p2.2 p1.2 nbins
    | some e => e
  { data := p2.1, edges := edges, binsKwarg := some edges }

/-- C3, refuted by the code: `histplot` passes `np.linspace(bin_min, bin_max,
nbins)` — `nbins` edges, hence `nbins − 1` bins — to `ax.hist`, contradicting
its own docstring ("Number of equally spaced bins").  With `data = [0, 1]`
and `nbins = 2` the edges are `[0, 1]`: one bin over [0, 1], not two. -/
theorem histplot_nbins_off_by_one :
    (histplot [0, 1] 2 none none none).data = [0, 1] ∧
    (histplot [0, 1] 2 none none none).edges = [0, 1] ∧
    (histplot [0, 1] 2 none none none).edges.length - 1 = 1 := by
  refine ⟨rfl, ?_, ?_⟩ <;>
    norm_num [histplot, npLinspace, npMax, npMin, List.range_succ]

/-- C4, refuted by the code: the second `histplot` call receives the `'bins'`
entry left in the shared default `hist_kwargs` by the first call and reuses
those edges (`np.linspace(0, 10, 3)`) instead of the edges its own arguments
would give (`np.linspace(0, 1, 3)`), which a fresh first call does compute. -/
theorem histplot_shared_default_counterexample :
    ((histplot [0, 1] 3 none none
        (histplot [0, 10] 3 none none none).binsKwarg).edges ≠
      npLinspace 0 1 3) ∧
    (histplot [0, 1] 3 none none none).edges = npLinspace 0 1 3 := by
  constructor
  · norm_num [histplot, npLinspace, npMax, npMin, List.range_succ]
  · norm_num [histplot, npMax, npMin]

/-- C4 (amended): `histplot` stores the bin edges it computes in the shared
default `hist_kwargs` dictionary, so a later call made with the default
dictionary reuses the stored edges of the first call verbatim instead of
computing bin edges from its own arguments — mutable state beyond the
current plotting axes, left behind by one call and observable by the
next. -/
theorem histplot_default_kwargs_persist (d1 d2 : List ℚ) (nbins : ℕ)
    (bmin bmax : Option ℚ) :
    (histplot d2 nbins bmin bmax
        (histplot d1 nbins bmin bmax none).binsKwarg).edges =
      (histplot d1 nbins bmin bmax none).edges ∧
    (histplot d1 nbins bmin bmax none).binsKwarg =
      some (histplot d1 nbins bmin bmax none).edges := by
  constructor <;> simp [histplot]

/-! ## `plotting/pyplot.py`: `categorical_histplot` -/

/-- Embeds `np.unique(data)`: the distinct values of the sample in ascending
order (numpy returns them sorted). -/
def npUnique (data : List ℚ) : List ℚ :=
  List.insertionSort (· ≤ ·) data.dedup

/-- Core of `categorical_histplot` from `src/hep_utils/plotting/pyplot.py`
(lines 254–313): `categories, counts = np.unique(data, return_counts=True)`,
`n_samples = np.sum(counts)`, and with `percentage` set
`counts = 100*counts/n_samples`; `ax.bar(categories, counts)` then draws
exactly the returned category/height pairs. -/
def categorical_histplot (data : List ℚ) (percentage : Bool) : List (ℚ × ℚ) :=
  let categories := npUnique data
  let counts : List ℚ := categories.map (fun c => (data.count c : ℚ))
  let nSamples : ℚ := counts.sum
  let counts := if percentage
    then counts.map (fun k => 100 * k / nSamples) else counts
  categories.zip counts

theorem mem_zip_map_eq {α β : Type} (f : α → β) :
    ∀ (l : List α) (a : α) (b : β), (a, b) ∈ l.zip (l.map f) → b = f a := by
  intro l
  induction l with
  | nil =>
    intro a b h
    simp at h
  | cons x xs ih =>
    intro a b h
    simp only [List.map_cons, List.zip_cons_cons, List.mem_cons,
      Prod.mk.injEq] at h
    rcases h with ⟨rfl, rfl⟩ | h
    · rfl
    · exact ih a b h

theorem counts_sum_eq_length (data : List ℚ) :
    ((npUnique data).map (fun c => (data.count c : ℚ))).sum =
      (data.length : ℚ) := by
  have hperm : (npUnique data).Perm data.dedup := List.perm_insertionSort _ _
  have h1 : ((npUnique data).map (fun c => (data.count c : ℚ))).sum =
      ((data.dedup).map (fun c => (data.count c : ℚ))).sum :=
    (hperm.map _).sum_eq
  have h2 : ((data.dedup).map (fun c => (data.count c : ℚ))).sum =
      (((data.dedup).map (fun c => data.count c)).sum : ℕ) := by
    rw [Nat.cast_list_sum, List.map_map]
    rfl
  rw [h1, h2, List.sum_map_count_dedup_eq_length]

theorem categorical_example_eval :
    categorical_histplot [1, 1, 2, 3, 3, 3] true =
      [(1, 100/3), (2, 50/3), (3, 50)] := by
  have hu : npUnique [1, 1, 2, 3, 3, 3] = [1, 2, 3] := by decide
  have h1 : ([1, 1, 2, 3, 3, 3] : List ℚ).count 1 = 2 := by decide
  have h2 : ([1, 1, 2, 3, 3, 3] : List ℚ).count 2 = 1 := by decide
  have h3 : ([1, 1, 2, 3, 3, 3] : List ℚ).count 3 = 3 := by decide
  simp only [categorical_histplot, hu, List.map_cons, List.map_nil,
    h1, h2, h3, List.sum_cons, List.sum_nil, if_true]
  norm_num [List.zip_cons_cons]

/-- C7: with `percentage` enabled, every (category, height) pair that
`categorical_histplot` reports has height `100 · count / sample size`; on
`[1,1,2,3,3,3]` it yields exactly `[(1, 100/3), (2, 50/3), (3, 50)]`, i.e.
33.33, 16.67 and 50.0 within a tolerance of 0.01. -/
theorem categorical_histplot_percentage (data : List ℚ) (c v : ℚ)
    (h : (c, v) ∈ categorical_histplot data true) :
    v = 100 * (data.count c : ℚ) / data.length ∧
    categorical_histplot [1, 1, 2, 3, 3, 3] true =
      [(1, 100/3), (2, 50/3), (3, 50)] ∧
    |(100 : ℚ)/3 - 3333/100| ≤ 1/100 ∧
    |(50 : ℚ)/3 - 1667/100| ≤ 1/100 ∧
    |(50 : ℚ) - 50| ≤ 1/100 := by
  refine ⟨?_, categorical_example_eval, by norm_num [abs_le],
    by norm_num [abs_le], by norm_num⟩
  simp only [categorical_histplot, if_true, List.map_map] at h
  have hv := mem_zip_map_eq _ _ _ _ h
  rw [hv]
  simp only [Function.comp]
  rw [counts_sum_eq_length data]

theorem categorical_histplot_percentage_witness :
    ((100 : ℚ)/3 =
      100 * (([1, 1, 2, 3, 3, 3] : List ℚ).count 1 : ℚ) /
        ([1, 1, 2, 3, 3, 3] : List ℚ).length) ∧
    categorical_histplot [1, 1, 2, 3, 3, 3] true =
      [(1, 100/3), (2, 50/3), (3, 50)] ∧
    |(100 : ℚ)/3 - 3333/100| ≤ 1/100 ∧
    |(50 : ℚ)/3 - 1667/100| ≤ 1/100 ∧
    |(50 : ℚ) - 50| ≤ 1/100 :=
  categorical_histplot_percentage [1, 1, 2, 3, 3, 3] 1 (100/3)
    (by rw [categorical_example_eval]; simp)

/-! ## `root.py`: `rdf_to_pandas` -/

/-- Columnar data handle of the external framework, reduced to what
`rdf_to_pandas` consumes: named columns of values. -/
structure RDataFrame where
  cols : List (String × List ℚ)

/-- Embeds `rdf.AsNumpy()` / `rdf.AsNumpy(columns)`: materializes all columns,
or the requested ones (an unknown name surfaces as the framework's lookup
error). -/
def AsNumpy (rdf : RDataFrame) (columns : Option (List String)) :
    Except String (List (String × List ℚ)) :=
  match columns with
  | none => .ok rdf.cols
  | some cs =>
    if cs.all (fun c => (rdf.cols.lookup c).isSome) then
      .ok (cs.map (fun c => (c, (rdf.cols.lookup c).getD [])))
    else .error "runtime_error: unknown column"

/-- Source `rdf_to_pandas` from `src/hep_utils/root.py` (lines 23–58):
materialize via `AsNumpy`, then for every key either keep the full column
(`nrows < 0`) or slice it to `[:nrows]`.  The `pop`/re-insert loop only
renames `std::string` keys to host strings (already strings here) and keeps
each column in place, iterating over a snapshot of the keys. -/
def rdf_to_pandas (rdf : RDataFrame) (columns : Option (List String))
    (nrows : ℤ) : Except String (List (String × List ℚ)) :=
  match AsNumpy rdf columns with
  | .error e => .error e
  | .ok pdfDict =>
    .ok (pdfDict.map (fun kv =>
      if nrows < 0 then (kv.1, kv.2) else (kv.1, kv.2.take nrows.toNat)))

/-- C8: with a positive `nrows`, `rdf_to_pandas` returns the full
materialization with every column cut to its first `nrows` entries —
truncation after materialization — and with the default `nrows = -1` it
returns the full materialization unchanged. -/
theorem rdf_to_pandas_truncates (rdf : RDataFrame)
    (columns : Option (List String)) (nrows : ℤ) (h : 0 < nrows) :
    rdf_to_pandas rdf columns nrows =
      Except.map (List.map (fun kv => (kv.1, kv.2.take nrows.toNat)))
        (rdf_to_pandas rdf columns (-1)) ∧
    rdf_to_pandas rdf columns (-1) = AsNumpy rdf columns := by
  have hneg : ¬ nrows < 0 := by omega
  constructor
  · cases hA : AsNumpy rdf columns with
    | error e => simp [rdf_to_pandas, hA, Except.map]
    | ok t =>
      simp [rdf_to_pandas, hA, Except.map, List.map_map, hneg,
        Function.comp]
  · cases hA : AsNumpy rdf columns with
    | error e => simp [rdf_to_pandas, hA]
    | ok t => simp [rdf_to_pandas, hA]

theorem rdf_to_pandas_truncates_witness :
    (rdf_to_pandas ⟨[("x", [0, 1, 2, 3, 4, 5, 6, 7, 8, 9])]⟩ none 5 =
      Except.map (List.map (fun kv => (kv.1, kv.2.take (5 : ℤ).toNat)))
        (rdf_to_pandas ⟨[("x", [0, 1, 2, 3, 4, 5, 6, 7, 8, 9])]⟩ none (-1)) ∧
     rdf_to_pandas ⟨[("x", [0, 1, 2, 3, 4, 5, 6, 7, 8, 9])]⟩ none (-1) =
      AsNumpy ⟨[("x", [0, 1, 2, 3, 4, 5, 6, 7, 8, 9])]⟩ none) ∧
    rdf_to_pandas ⟨[("x", [0, 1, 2, 3, 4, 5, 6, 7, 8, 9])]⟩ none 5 =
      .ok [("x", [0, 1, 2, 3, 4])] :=
  ⟨rdf_to_pandas_truncates ⟨[("x", [0, 1, 2, 3, 4, 5, 6, 7, 8, 9])]⟩ none 5
      (by decide),
    by simp [rdf_to_pandas, AsNumpy]⟩

/-- C10: `rdf_to_pandas` treats every non-negative `nrows` as a truncation
bound — `nrows = 0` empties every column rather than keeping all rows —
and only a negative `nrows` (the `-1` default) returns the full row set. -/
theorem rdf_to_pandas_nrows_zero (rdf : RDataFrame)
    (columns : Option (List String)) :
    rdf_to_pandas rdf columns 0 =
      Except.map (List.map (fun kv => (kv.1, ([] : List ℚ))))
        (rdf_to_pandas rdf columns (-1)) ∧
    (∀ n : ℤ, 0 ≤ n → rdf_to_pandas rdf columns n =
      Except.map (List.map (fun kv => (kv.1, kv.2.take n.toNat)))
        (rdf_to_pandas rdf columns (-1))) ∧
    (∀ n : ℤ, n < 0 →
      rdf_to_pandas rdf columns n = rdf_to_pandas rdf columns (-1)) := by
  have key : ∀ n : ℤ, 0 ≤ n → rdf_to_pandas rdf columns n =
      Except.map (List.map (fun kv => (kv.1, kv.2.take n.toNat)))
        (rdf_to_pandas rdf columns (-1)) := by
    intro n hn
    have hneg : ¬ n < 0 := by omega
    cases hA : AsNumpy rdf columns with
    | error e => simp [rdf_to_pandas, hA, Except.map]
    | ok t =>
      simp [rdf_to_pandas, hA, Except.map, List.map_map, hneg,
        Function.comp]
  refine ⟨?_, key, ?_⟩
  · have h0 := key 0 le_rfl
    simpa using h0
  · intro n hn
    cases hA : AsNumpy rdf columns with
    | error e => simp [rdf_to_pandas, hA]
    | ok t => simp [rdf_to_pandas, hA, hn]

theorem rdf_to_pandas_nrows_zero_witness :
    (rdf_to_pandas ⟨[("x", [1, 2, 3])]⟩ none 0 =
      Except.map (List.map (fun kv => (kv.1, ([] : List ℚ))))
        (rdf_to_pandas ⟨[("x", [1, 2, 3])]⟩ none (-1))) ∧
    (rdf_to_pandas ⟨[("x", [1, 2, 3])]⟩ none 2 =
      Except.map (List.map (fun kv => (kv.1, kv.2.take (2 : ℤ).toNat)))
        (rdf_to_pandas ⟨[("x", [1, 2, 3])]⟩ none (-1))) ∧
    (rdf_to_pandas ⟨[("x", [1, 2, 3])]⟩ none (-3) =
      rdf_to_pandas ⟨[("x", [1, 2, 3])]⟩ none (-1)) :=
  ⟨(rdf_to_pandas_nrows_zero ⟨[("x", [1, 2, 3])]⟩ none).1,
    (rdf_to_pandas_nrows_zero ⟨[("x", [1, 2, 3])]⟩ none).2.1 2 (by decide),
    (rdf_to_pandas_nrows_zero ⟨[("x", [1, 2, 3])]⟩ none).2.2 (-3) (by decide)⟩

/-! ## `root.py`: `open_vector` -/

/-- Cell of a columnar-handle column: the framework's columns hold scalars or
fixed-length vectors. -/
inductive RVal
  | scalar (x : ℚ)
  | vec (xs : List ℚ)
deriving DecidableEq

/-- Value the framework's expression `c[i]` reads from a cell. -/
def RVal.elemAt : RVal → ℕ → ℚ
  | .scalar x, _ => x
  | .vec xs, i => xs.getD i 0

/-- Columnar handle with possibly vector-valued columns, as `open_vector`
consumes it. -/
structure VecRDF where
  cols : List (String × List RVal)
deriving DecidableEq

/-- Embeds `rdf.Define(new_name, f'{column}[{i}]')` of the external
framework: appends a new column whose row-`r` value is the `i`-th element of
column `column`'s row-`r` cell. -/
def VecRDF.defineIndex (rdf : VecRDF) (newName colName : String) (i : ℕ) :
    VecRDF :=
  ⟨rdf.cols ++ [(newName,
    ((rdf.cols.lookup colName).getD []).map
      (fun v => RVal.scalar (v.elemAt i)))]⟩

/-- Source `open_vector` from `src/hep_utils/root.py` (lines 61–88): for `i`
in `range(vec_len)`, define `{column}_{i}` as `{column}[{i}]` and collect the
new names in order; return the names and the extended handle. -/
def open_vector (column : String) (vecLen : ℕ) (rdf : VecRDF) :
    List String × VecRDF :=
  (List.range vecLen).foldl
    (fun acc i =>
      let newName := column ++ "_" ++ toString i
      (acc.1 ++ [newName], acc.2.defineIndex newName column i))
    ([], rdf)

theorem appended_name_ne (s t : String) : s ++ "_" ++ t ≠ s := by
  intro h
  have hl := congrArg String.length h
  simp only [String.length_append] at hl
  have h1 : ("_" : String).length = 1 := rfl
  omega

theorem lookup_eq_none_of_ne (k : String) :
    ∀ l : List (String × List RVal), (∀ p ∈ l, p.1 ≠ k) → l.lookup k = none := by
  intro l
  induction l with
  | nil =>
    intro _
    rfl
  | cons p t ih =>
    intro h
    have hp : p.1 ≠ k := h p (List.mem_cons_self p t)
    have hk : (k == p.1) = false := by
      simp [beq_eq_false_iff_ne]
      exact fun he => hp he.symm
    simp only [List.lookup, hk]
    exact ih (fun q hq => h q (List.mem_cons_of_mem p hq))

theorem open_vector_step (column : String) (n : ℕ) (rdf : VecRDF) :
    open_vector column (n + 1) rdf =
      ((open_vector column n rdf).1 ++ [column ++ "_" ++ toString n],
       (open_vector column n rdf).2.defineIndex
         (column ++ "_" ++ toString n) column n) := by
  simp only [open_vector, List.range_succ, List.foldl_append, List.foldl_cons,
    List.foldl_nil]

/-- C9: `open_vector column n rdf` returns exactly the names
`column_0, …, column_{n-1}` in ascending index order, and extends the handle
with one new column per index whose rows are the `i`-th elements of the
original vector column; in particular on a handle with a 3-length vector
column `"v"` and `n = 3` it produces exactly `["v_0", "v_1", "v_2"]`, each
matching the corresponding vector element across all rows. -/
theorem open_vector_expands (column : String) (n : ℕ) (rdf : VecRDF) :
    (open_vector column n rdf).1 =
      (List.range n).map (fun i => column ++ "_" ++ toString i) ∧
    (open_vector column n rdf).2.cols =
      rdf.cols ++ (List.range n).map (fun i =>
        (column ++ "_" ++ toString i,
          ((rdf.cols.lookup column).getD []).map
            (fun v => RVal.scalar (v.elemAt i)))) ∧
    open_vector "v" 3 ⟨[("v", [RVal.vec [10, 20, 30], RVal.vec [4, 5, 6]])]⟩ =
      (["v_0", "v_1", "v_2"],
       ⟨[("v", [RVal.vec [10, 20, 30], RVal.vec [4, 5, 6]]),
         ("v_0", [RVal.scalar 10, RVal.scalar 4]),
         ("v_1", [RVal.scalar 20, RVal.scalar 5]),
         ("v_2", [RVal.scalar 30, RVal.scalar 6])]⟩) := by
  refine ⟨?_, ?_, ?_⟩
  · induction n with
    | zero => rfl
    | succ m ih =>
      rw [open_vector_step, ih, List.range_succ, List.map_append]
      rfl
  · induction n with
    | zero => simp [open_vector]
    | succ m ih =>
      rw [open_vector_step]
      simp only [VecRDF.defineIndex, ih]
      have hlook :
          ((rdf.cols ++ (List.range m).map (fun i =>
            (column ++ "_" ++ toString i,
              ((rdf.cols.lookup column).getD []).map
                (fun v => RVal.scalar (v.elemAt i))))).lookup column) =
          rdf.cols.lookup column := by
        rw [List.lookup_append]
        cases hc : rdf.cols.lookup column with
        | some s => rfl
        | none =>
          simp only [Option.none_or]
          apply lookup_eq_none_of_ne
          intro p hp
          simp only [List.mem_map] at hp
          obtain ⟨i, _, rfl⟩ := hp
          exact appended_name_ne column (toString i)
      rw [hlook, List.range_succ, List.map_append, List.append_assoc]
      rfl
  · rfl

end HepUtils
